import Mathlib

/-!
Shallow embedding of the product-management application in `src/main.py`:
the SQLite-backed `DatabaseManager` persistence layer, the call traces
against it, and the form-validation logic of `ProductManagerApp`.
-/

/-- One row of the `products` table created by `DatabaseManager.create_table`:
`id INTEGER PRIMARY KEY AUTOINCREMENT`, `name TEXT`, `category TEXT`,
`price REAL`, `quantity INTEGER`, `created_date TEXT`.  The values the
application stores are the floats and ints produced by the caller; `price`
is modelled as an exact rational, which is faithful because the store only
passes the value through and never computes with it. -/
structure Product where
  id : Nat
  name : String
  category : String
  price : Rat
  quantity : Int
  created_date : String
deriving DecidableEq, Repr

/-- The state of the `products` table: its rows in rowid (insertion) order,
together with the AUTOINCREMENT sequence value for the table — the largest id
ever assigned, which SQLite never decreases and never reuses. -/
structure DB where
  rows : List Product
  seq : Nat
deriving DecidableEq, Repr

/-- The freshly created empty table. -/
def DB.empty : DB := ⟨[], 0⟩

/-- `DatabaseManager.create_product` (src/main.py lines 24-32): a single
INSERT of the five supplied values; with AUTOINCREMENT the engine assigns id
`seq + 1` and `cursor.lastrowid` returns it.  The ambient
`datetime.now().strftime(...)` call is modelled by the explicit `now`
argument. -/
def create_product (db : DB) (name category : String) (price : Rat)
    (quantity : Int) (now : String) : DB × Nat :=
  (⟨db.rows ++ [⟨db.seq + 1, name, category, price, quantity, now⟩], db.seq + 1⟩,
   db.seq + 1)

/-- `DatabaseManager.read_products` (lines 34-37):
`SELECT * FROM products ORDER BY id DESC`. -/
def read_products (db : DB) : List Product :=
  db.rows.insertionSort (fun a b => b.id ≤ a.id)

/-- `DatabaseManager.update_product` (lines 39-47): `UPDATE products SET
name=?, category=?, price=?, quantity=? WHERE id=?` — `id` and `created_date`
are not in the SET list, so matching rows keep them.  `cursor.rowcount` is
the number of rows matched by the WHERE clause. -/
def update_product (db : DB) (product_id : Nat) (name category : String)
    (price : Rat) (quantity : Int) : DB × Nat :=
  (⟨db.rows.map (fun r =>
      if r.id = product_id then
        Product.mk r.id name category price quantity r.created_date
      else r),
    db.seq⟩,
   db.rows.countP (fun r => r.id = product_id))

/-- `DatabaseManager.delete_product` (lines 49-53): `DELETE FROM products
WHERE id=?`; rowcount is the number of rows deleted.  DELETE does not touch
the AUTOINCREMENT sequence. -/
def delete_product (db : DB) (product_id : Nat) : DB × Nat :=
  (⟨db.rows.filter (fun r => r.id ≠ product_id), db.seq⟩,
   db.rows.countP (fun r => r.id = product_id))

/-- Whether `f` holds of some suffix of the list (the list itself included). -/
def anySuffix (f : List Char → Bool) : List Char → Bool
  | [] => f []
  | c :: s => f (c :: s) || anySuffix f s

/-- SQLite `LIKE` on lists of characters: `likeMatches pat s` decides whether
the pattern matches the whole string.  Per SQLite defaults the comparison is
case-insensitive for the 26 ASCII letters only — exactly the fold performed
by `Char.toLower` — while `%` matches any sequence of characters and an
underscore matches exactly one character. -/
def likeMatches : List Char → List Char → Bool
  | [], s => s.isEmpty
  | p :: ps, s =>
    if p = '%' then anySuffix (fun t => likeMatches ps t) s
    else
      match s with
      | [] => false
      | c :: s2 => (if p = '_' then true else p.toLower == c.toLower) && likeMatches ps s2

/-- `DatabaseManager.search_products` (lines 55-62): `SELECT * FROM products
WHERE name LIKE ? OR category LIKE ? ORDER BY id DESC`, both parameters bound
to the search term wrapped in percent signs. -/
def search_products (db : DB) (search_term : String) : List Product :=
  (db.rows.filter (fun r =>
      likeMatches ("%" ++ search_term ++ "%").toList r.name.toList ||
      likeMatches ("%" ++ search_term ++ "%").toList r.category.toList)).insertionSort
    (fun a b => b.id ≤ a.id)

/-- Spec-side predicate (section 8 of the specification): the term occurs in
the string as a case-insensitive substring, with the same ASCII-only case
fold the store uses. -/
def ciSubstring (t s : String) : Bool :=
  decide ((t.toList.map Char.toLower) <:+: (s.toList.map Char.toLower))

/-- The four form fields of `ProductManagerApp`, as the raw strings typed by
the user. -/
structure Form where
  name : String
  category : String
  price : String
  quantity : String
deriving DecidableEq, Repr

/-- Python `str.strip()`: the string without leading and trailing whitespace
(the ASCII whitespace characters; the further Unicode space characters Python
also strips never reach the form). -/
def pyStrip (s : String) : String :=
  ⟨((s.toList.dropWhile Char.isWhitespace).reverse.dropWhile Char.isWhitespace).reverse⟩

/-- Numeric value of a list of decimal digit characters. -/
def digitsVal (l : List Char) : Nat :=
  l.foldl (fun a c => 10 * a + (c.toNat - 48)) 0

/-- Value of a non-empty all-digit character list, `none` otherwise. -/
def parseNat? (l : List Char) : Option Nat :=
  if l ≠ [] ∧ l.all Char.isDigit then some (digitsVal l) else none

/-- Optional leading sign: whether the numeral is negated, and the rest. -/
def splitSign : List Char → Bool × List Char
  | [] => (false, [])
  | c :: t => if c = '-' then (true, t) else if c = '+' then (false, t) else (false, c :: t)

/-- Python `int(s)` on plain decimal numerals: surrounding whitespace is
ignored, then an optional sign followed by a non-empty digit string.
(Underscore digit separators and non-decimal bases are not modelled; nothing
in the application produces them.) -/
def pyInt? (s : String) : Option Int :=
  let sg := splitSign (pyStrip s).toList
  match parseNat? sg.2 with
  | none => none
  | some n => some (if sg.1 then -(n : Int) else (n : Int))

/-- Python `float(s)` on plain decimal numerals, read as an exact rational:
surrounding whitespace is ignored, then an optional sign and digits with an
optional decimal point (`7`, `7.5`, `7.`, `.5`).  Exponents, `inf`, `nan` and
underscore separators are not modelled, and the rounding of the decimal to a
binary float is ignored: the program never computes with the value, so the
exact rational stands in for it. -/
def pyFloat? (s : String) : Option Rat :=
  let sg := splitSign (pyStrip s).toList
  let intPart := sg.2.takeWhile Char.isDigit
  let rest := sg.2.dropWhile Char.isDigit
  let mag : Option Rat :=
    match rest with
    | [] => if intPart = [] then none else some (digitsVal intPart : Rat)
    | c :: fracPart =>
      if c = '.' ∧ fracPart.all Char.isDigit ∧ (intPart ≠ [] ∨ fracPart ≠ []) then
        some ((digitsVal intPart : Rat) +
          (digitsVal fracPart : Rat) / ((10 : Rat) ^ fracPart.length))
      else none
  match mag with
  | none => none
  | some m => some (if sg.1 then -m else m)

/-- `ProductManagerApp.validate_form` (lines 354-383): the name, then the
category, must be non-empty after stripping; the price must parse with
`float` and be strictly positive; the quantity must parse with `int` and be
non-negative.  Each failed check returns `False` (after showing a snackbar,
which is pure UI and not modelled). -/
def validate_form (f : Form) : Bool :=
  if f.name = "" || pyStrip f.name = "" then false
  else if f.category = "" || pyStrip f.category = "" then false
  else
    match pyFloat? f.price with
    | none => false
    | some price =>
      if price ≤ 0 then false
      else
        match pyInt? f.quantity with
        | none => false
        | some quantity => if quantity < 0 then false else true

/-- `ProductManagerApp.add_product` (lines 213-237): runs `validate_form` and
returns without any store call when it fails; then re-checks that all four
fields are truthy (non-empty strings), parses the price with `float` and the
quantity with `int` (a `ValueError` is caught and aborts with no insert),
strips the name and category, and calls `create_product`.  Returns the new
database state and whether a row was inserted. -/
def add_product (db : DB) (f : Form) (now : String) : DB × Bool :=
  if validate_form f then
    if f.name ≠ "" ∧ f.category ≠ "" ∧ f.price ≠ "" ∧ f.quantity ≠ "" then
      match pyFloat? f.price, pyInt? f.quantity with
      | some price, some quantity =>
        ((create_product db (pyStrip f.name) (pyStrip f.category) price quantity now).1, true)
      | _, _ => (db, false)
    else (db, false)
  else (db, false)

/-- An SQLite dynamically-typed value, as bound by the Python sqlite3 driver:
the driver binds whatever int, float or str it is handed and the engine
stores it, regardless of the declared column type. -/
inductive SqlVal where
  | intV (n : Int)
  | realV (q : Rat)
  | textV (s : String)
deriving DecidableEq, Repr

/-- A `products` row at the dynamic-typing level: `price` and `quantity` hold
whatever value was bound for them. -/
structure RawRow where
  id : Nat
  name : String
  category : String
  price : SqlVal
  quantity : SqlVal
  created_date : String
deriving DecidableEq, Repr

/-- The table state at the dynamic-typing level. -/
structure RawDB where
  rows : List RawRow
  seq : Nat
deriving DecidableEq, Repr

/-- The freshly created empty table, dynamic-typing view. -/
def RawDB.empty : RawDB := ⟨[], 0⟩

/-- `DatabaseManager.create_product` (lines 24-32) seen at the dynamic-typing
level: the INSERT binds the five values exactly as given.  The method body
contains no type check of any kind, and SQLite flexible typing accepts
non-numeric text for the REAL and INTEGER columns (the affinity conversion of
numeric-looking text is not modelled; it never rejects a value either), so no
error path exists. -/
def create_product_raw (db : RawDB) (name category : String)
    (price quantity : SqlVal) (now : String) : RawDB × Nat :=
  (⟨db.rows ++ [⟨db.seq + 1, name, category, price, quantity, now⟩], db.seq + 1⟩,
   db.seq + 1)

/-- A mutating call against the store, for whole-lifetime statements. -/
inductive Op where
  | createOp (name category : String) (price : Rat) (quantity : Int) (now : String)
  | updateOp (product_id : Nat) (name category : String) (price : Rat) (quantity : Int)
  | deleteOp (product_id : Nat)

/-- The state transition of one store call. -/
def applyOp (db : DB) : Op → DB
  | .createOp n c p q now => (create_product db n c p q now).1
  | .updateOp i n c p q => (update_product db i n c p q).1
  | .deleteOp i => (delete_product db i).1

/-- The ids handed out by the create calls of a call trace, in call order. -/
def assignedIds (db : DB) : List Op → List Nat
  | [] => []
  | .createOp n c p q now :: rest =>
    (create_product db n c p q now).2 :: assignedIds (applyOp db (.createOp n c p q now)) rest
  | .updateOp i n c p q :: rest => assignedIds (applyOp db (.updateOp i n c p q)) rest
  | .deleteOp i :: rest => assignedIds (applyOp db (.deleteOp i)) rest

/-- Running a call trace from the freshly created empty table. -/
def runOps (ops : List Op) : DB := ops.foldl applyOp DB.empty

/-- The reachable-state invariant of the table: rowids strictly increase
along the stored order, and the AUTOINCREMENT sequence bounds every id in the
table. -/
def Wf (db : DB) : Prop :=
  db.rows.Pairwise (fun a b => a.id < b.id) ∧ ∀ r ∈ db.rows, r.id ≤ db.seq

instance (db : DB) : Decidable (Wf db) := by
  unfold Wf; infer_instance

/-- The search term contains no SQL LIKE wildcard character. -/
def NoWild (l : List Char) : Prop := ∀ c ∈ l, c ≠ '%' ∧ c ≠ '_'

instance (l : List Char) : Decidable (NoWild l) := by
  unfold NoWild; infer_instance

instance : IsTotal Product (fun a b => b.id ≤ a.id) :=
  ⟨fun a b => Nat.le_total b.id a.id⟩

instance : IsTrans Product (fun a b => b.id ≤ a.id) :=
  ⟨fun _ _ _ h1 h2 => Nat.le_trans h2 h1⟩

instance : IsAntisymm Product (fun a b => b.id < a.id) :=
  ⟨fun _ _ h1 h2 => absurd (Nat.lt_trans h1 h2) (Nat.lt_irrefl _)⟩

/-- A list of rows with strictly increasing ids, sorted by descending id with
the comparator of the SQL `ORDER BY id DESC`, is its own reverse. -/
theorem sortDesc_eq_reverse (l : List Product) (hl : l.Pairwise (fun a b => a.id < b.id)) :
    l.insertionSort (fun a b => b.id ≤ a.id) = l.reverse := by
  have hperm : List.Perm (l.insertionSort (fun a b => b.id ≤ a.id)) l.reverse :=
    (List.perm_insertionSort _ _).trans l.reverse_perm.symm
  have hne : l.Pairwise (fun a b => a.id ≠ b.id) :=
    hl.imp (fun h => Nat.ne_of_lt h)
  have hs1 : (l.insertionSort (fun a b => b.id ≤ a.id)).Pairwise (fun a b => b.id ≤ a.id) :=
    List.sorted_insertionSort _ l
  have hne1 : (l.insertionSort (fun a b => b.id ≤ a.id)).Pairwise (fun a b => a.id ≠ b.id) :=
    ((List.perm_insertionSort _ _).pairwise_iff (fun h => h.symm)).mpr hne
  have hs1s : (l.insertionSort (fun a b => b.id ≤ a.id)).Pairwise (fun a b => b.id < a.id) :=
    (hs1.and hne1).imp (fun h => Nat.lt_of_le_of_ne h.1 (fun he => h.2 he.symm))
  have hs2 : l.reverse.Pairwise (fun a b => b.id < a.id) :=
    List.pairwise_reverse.mpr hl
  exact List.eq_of_perm_of_sorted hperm hs1s hs2

/-- The descending sort of a row list with pairwise distinct ids is sorted
strictly. -/
theorem sortDesc_pairwise_strict (l : List Product)
    (hnd : l.Pairwise (fun a b => a.id ≠ b.id)) :
    (l.insertionSort (fun a b => b.id ≤ a.id)).Pairwise (fun a b => b.id < a.id) := by
  have hs1 : (l.insertionSort (fun a b => b.id ≤ a.id)).Pairwise (fun a b => b.id ≤ a.id) :=
    List.sorted_insertionSort _ l
  have hne1 : (l.insertionSort (fun a b => b.id ≤ a.id)).Pairwise (fun a b => a.id ≠ b.id) :=
    ((List.perm_insertionSort _ l).pairwise_iff (fun h => h.symm)).mpr hnd
  exact (hs1.and hne1).imp (fun h => Nat.lt_of_le_of_ne h.1 (fun he => h.2 he.symm))

/-- Appending a row whose id exceeds every present id and sorting descending
puts the new row first. -/
theorem sortDesc_append_max (l : List Product) (x : Product)
    (hlt : ∀ r ∈ l, r.id < x.id) :
    (l ++ [x]).insertionSort (fun a b => b.id ≤ a.id) =
      x :: l.insertionSort (fun a b => b.id ≤ a.id) := by
  induction l with
  | nil => rfl
  | cons a t ih =>
    have hat : ∀ r ∈ t, r.id < x.id := fun r hr => hlt r (List.mem_cons_of_mem a hr)
    have hax : ¬ x.id ≤ a.id := fun hle =>
      Nat.lt_irrefl a.id (Nat.lt_of_lt_of_le (hlt a (List.mem_cons_self a t)) hle)
    rw [List.cons_append, List.insertionSort, ih hat, List.insertionSort,
      List.orderedInsert, if_neg hax]

/-- Inserting a row that dominates a whole list places it in front. -/
theorem orderedInsert_front (a : Product) (m : List Product)
    (h : ∀ x ∈ m, x.id ≤ a.id) :
    m.orderedInsert (fun x y => y.id ≤ x.id) a = a :: m := by
  cases m with
  | nil => rfl
  | cons c rest =>
    rw [List.orderedInsert, if_pos (h c (List.mem_cons_self c rest))]

/-- Filtering commutes with ordered insertion of a kept element into a
descending-sorted list. -/
theorem filter_orderedInsert (p : Product → Bool) (a : Product) (l : List Product)
    (ha : p a = true) (hs : l.Pairwise (fun x y => y.id ≤ x.id)) :
    (l.orderedInsert (fun x y => y.id ≤ x.id) a).filter p =
      (l.filter p).orderedInsert (fun x y => y.id ≤ x.id) a := by
  induction l with
  | nil => simp [List.orderedInsert, ha]
  | cons b t ih =>
    obtain ⟨hb, ht⟩ := List.pairwise_cons.mp hs
    by_cases hr : b.id ≤ a.id
    · rw [List.orderedInsert, if_pos hr]
      by_cases hpb : p b = true
      · have hfront : ∀ x ∈ b :: t.filter p, x.id ≤ a.id := by
          intro x hx
          rcases List.mem_cons.mp hx with h | h
          · exact h ▸ hr
          · exact Nat.le_trans (hb x (List.mem_of_mem_filter h)) hr
        rw [List.filter_cons_of_pos ha, List.filter_cons_of_pos hpb,
          orderedInsert_front a _ hfront]
      · have hfront : ∀ x ∈ t.filter p, x.id ≤ a.id := fun x hx =>
          Nat.le_trans (hb x (List.mem_of_mem_filter hx)) hr
        rw [List.filter_cons_of_pos ha, List.filter_cons_of_neg hpb,
          orderedInsert_front a _ hfront]
    · rw [List.orderedInsert, if_neg hr]
      by_cases hpb : p b = true
      · rw [List.filter_cons_of_pos hpb, ih ht, List.filter_cons_of_pos hpb,
          List.orderedInsert, if_neg hr]
      · rw [List.filter_cons_of_neg hpb, ih ht, List.filter_cons_of_neg hpb]

/-- Filtering away the inserted element undoes the insertion. -/
theorem filter_orderedInsert_neg (p : Product → Bool) (a : Product)
    (l : List Product) (ha : p a = false) :
    (l.orderedInsert (fun x y => y.id ≤ x.id) a).filter p = l.filter p := by
  induction l with
  | nil => simp [List.orderedInsert, ha]
  | cons b t ih =>
    have hna : ¬ p a = true := by simp [ha]
    by_cases hr : b.id ≤ a.id
    · rw [List.orderedInsert, if_pos hr, List.filter_cons_of_neg hna]
    · rw [List.orderedInsert, if_neg hr]
      by_cases hpb : p b = true
      · rw [List.filter_cons_of_pos hpb, ih, List.filter_cons_of_pos hpb]
      · rw [List.filter_cons_of_neg hpb, ih, List.filter_cons_of_neg hpb]

/-- The WHERE clause commutes with the ORDER BY: filtering after sorting is
the same as sorting the filtered rows (insertion sort is stable). -/
theorem filter_insertionSort (p : Product → Bool) (l : List Product) :
    (l.insertionSort (fun x y => y.id ≤ x.id)).filter p =
      (l.filter p).insertionSort (fun x y => y.id ≤ x.id) := by
  induction l with
  | nil => rfl
  | cons a t ih =>
    by_cases hpa : p a = true
    · rw [List.insertionSort, List.filter_cons_of_pos hpa, List.insertionSort,
        filter_orderedInsert p a _ hpa (List.sorted_insertionSort _ t), ih]
    · rw [List.insertionSort, List.filter_cons_of_neg (by simpa using hpa),
        filter_orderedInsert_neg p a _ (by simpa using hpa), ih]

/-- Ordered insertion commutes with an id-preserving row transformation. -/
theorem orderedInsert_map (g : Product → Product) (hg : ∀ r, (g r).id = r.id)
    (a : Product) (l : List Product) :
    (l.map g).orderedInsert (fun x y => y.id ≤ x.id) (g a) =
      (l.orderedInsert (fun x y => y.id ≤ x.id) a).map g := by
  induction l with
  | nil => rfl
  | cons b t ih =>
    by_cases h : b.id ≤ a.id
    · rw [List.map_cons, List.orderedInsert, List.orderedInsert,
        if_pos (by rw [hg, hg]; exact h), if_pos h, List.map_cons, List.map_cons]
    · rw [List.map_cons, List.orderedInsert, List.orderedInsert,
        if_neg (by rw [hg, hg]; exact h), if_neg h, List.map_cons, ih]

/-- The ORDER BY commutes with an id-preserving row transformation such as
the SET clause of the UPDATE. -/
theorem insertionSort_map (g : Product → Product) (hg : ∀ r, (g r).id = r.id)
    (l : List Product) :
    (l.map g).insertionSort (fun x y => y.id ≤ x.id) =
      (l.insertionSort (fun x y => y.id ≤ x.id)).map g := by
  induction l with
  | nil => rfl
  | cons a t ih =>
    rw [List.map_cons, List.insertionSort, List.insertionSort, ih,
      orderedInsert_map g hg]

/-- Under the reachability invariant, `read_products` simply reverses the
stored (rowid-ascending) row order. -/
theorem read_products_eq_reverse (db : DB) (hW : Wf db) :
    read_products db = db.rows.reverse :=
  sortDesc_eq_reverse db.rows hW.1

/-- The empty table satisfies the invariant. -/
theorem wf_empty : Wf DB.empty := by
  constructor <;> simp [DB.empty]

/-- `create_product` preserves the invariant. -/
theorem wf_create (db : DB) (n c : String) (p : Rat) (q : Int) (now : String)
    (hW : Wf db) : Wf (create_product db n c p q now).1 := by
  obtain ⟨h1, h2⟩ := hW
  simp only [create_product, Wf]
  constructor
  · rw [List.pairwise_append]
    refine ⟨h1, List.pairwise_singleton _ _, ?_⟩
    intro a ha b hb
    have hb1 : b = ⟨db.seq + 1, n, c, p, q, now⟩ := by simpa using hb
    subst hb1
    exact Nat.lt_succ_of_le (h2 a ha)
  · intro r hr
    rcases List.mem_append.mp hr with h | h
    · exact Nat.le_succ_of_le (h2 r h)
    · have : r = ⟨db.seq + 1, n, c, p, q, now⟩ := by simpa using h
      subst this
      exact Nat.le_refl _

/-- `update_product` preserves the invariant: it never changes an id. -/
theorem wf_update (db : DB) (i : Nat) (n c : String) (p : Rat) (q : Int)
    (hW : Wf db) : Wf (update_product db i n c p q).1 := by
  obtain ⟨h1, h2⟩ := hW
  have hid : ∀ r : Product,
      (if r.id = i then Product.mk r.id n c p q r.created_date else r).id = r.id := by
    intro r
    by_cases h : r.id = i <;> simp [h]
  simp only [update_product, Wf]
  constructor
  · rw [List.pairwise_map]
    refine h1.imp ?_
    intro a b hab
    simpa [hid] using hab
  · intro r hr
    rcases List.mem_map.mp hr with ⟨x, hx, hxr⟩
    subst hxr
    rw [hid]
    exact h2 x hx

/-- `delete_product` preserves the invariant. -/
theorem wf_delete (db : DB) (i : Nat) (hW : Wf db) : Wf (delete_product db i).1 := by
  obtain ⟨h1, h2⟩ := hW
  exact ⟨h1.sublist (List.filter_sublist _), fun r hr => h2 r (List.mem_of_mem_filter hr)⟩

/-- In a row list with pairwise distinct ids, a present id is counted exactly
once by the WHERE clause. -/
theorem countP_id_eq_one (l : List Product) (i : Nat)
    (hnd : l.Pairwise (fun a b => a.id ≠ b.id)) (hmem : ∃ r ∈ l, r.id = i) :
    l.countP (fun r => r.id = i) = 1 := by
  induction l with
  | nil => simp at hmem
  | cons x t ih =>
    rcases List.pairwise_cons.mp hnd with ⟨hx, ht⟩
    by_cases hxi : x.id = i
    · have hzero : t.countP (fun r => r.id = i) = 0 := by
        rw [List.countP_eq_zero]
        intro r hr
        simpa using fun h => hx r hr (by rw [hxi, h])
      simp [List.countP_cons, hxi, hzero]
    · rcases hmem with ⟨r, hr, hri⟩
      rcases List.mem_cons.mp hr with h | h
      · exact absurd (h ▸ hri) hxi
      · simp [List.countP_cons, hxi, ih ht ⟨r, h, hri⟩]

/-- An absent id is counted zero times by the WHERE clause. -/
theorem countP_id_eq_zero (l : List Product) (i : Nat)
    (habs : ∀ r ∈ l, r.id ≠ i) : l.countP (fun r => r.id = i) = 0 := by
  rw [List.countP_eq_zero]
  intro r hr
  simpa using habs r hr

/-- `anySuffix f s` holds exactly when `f` holds of some suffix of `s`. -/
theorem anySuffix_iff (f : List Char → Bool) (s : List Char) :
    anySuffix f s = true ↔ ∃ t, t <:+ s ∧ f t = true := by
  induction s with
  | nil => simp [anySuffix]
  | cons c s ih =>
    simp only [anySuffix, Bool.or_eq_true, ih]
    constructor
    · rintro (h | ⟨t, hts, hft⟩)
      · exact ⟨c :: s, List.suffix_refl _, h⟩
      · exact ⟨t, hts.trans (List.suffix_cons c s), hft⟩
    · rintro ⟨t, hts, hft⟩
      rcases List.suffix_cons_iff.mp hts with h | h
      · subst h; exact Or.inl hft
      · exact Or.inr ⟨t, h, hft⟩

/-- A leading percent defers to some suffix of the string. -/
theorem likeMatches_pct (ps : List Char) (s : List Char) :
    likeMatches ('%' :: ps) s = anySuffix (fun t => likeMatches ps t) s := by
  simp [likeMatches]

/-- A wildcard-free pattern followed by a single percent matches exactly the
strings whose case-folded form starts with the case-folded pattern. -/
theorem likeMatches_lit_pct (p : List Char) (hp : NoWild p) (s : List Char) :
    likeMatches (p ++ ['%']) s = true ↔
      p.map Char.toLower <+: s.map Char.toLower := by
  induction p generalizing s with
  | nil =>
    simp only [List.nil_append, List.map_nil, List.nil_prefix, iff_true]
    rw [likeMatches_pct, anySuffix_iff]
    exact ⟨[], List.nil_suffix, rfl⟩
  | cons a p ih =>
    obtain ⟨ha1, ha2⟩ := hp a (List.mem_cons_self a p)
    have hp2 : NoWild p := fun c hc => hp c (List.mem_cons_of_mem a hc)
    cases s with
    | nil => simp [likeMatches, ha1]
    | cons c s =>
      simp only [List.cons_append, likeMatches, if_neg ha1, if_neg ha2,
        Bool.and_eq_true, beq_iff_eq, List.map_cons, List.cons_prefix_cons]
      exact and_congr_right (fun _ => ih hp2 s)

/-- The pattern the store builds — percent, wildcard-free term, percent —
matches exactly the strings whose case-folded form contains the case-folded
term as a contiguous substring. -/
theorem likeMatches_wrap (t : List Char) (ht : NoWild t) (s : List Char) :
    likeMatches ('%' :: (t ++ ['%'])) s = true ↔
      t.map Char.toLower <:+: s.map Char.toLower := by
  rw [likeMatches_pct, anySuffix_iff]
  constructor
  · rintro ⟨u, hus, hu⟩
    rw [likeMatches_lit_pct t ht] at hu
    exact List.infix_iff_prefix_suffix.mpr ⟨u.map Char.toLower, hu, hus.map Char.toLower⟩
  · intro h
    rcases List.infix_iff_prefix_suffix.mp h with ⟨w, hpw, hws⟩
    rcases hws with ⟨w1, hw1⟩
    rcases List.map_eq_append_iff.mp hw1.symm with ⟨l1, l2, hs, _, hm2⟩
    refine ⟨l2, ⟨l1, hs.symm⟩, ?_⟩
    rw [likeMatches_lit_pct t ht, hm2]
    exact hpw

/-- Character list of the `LIKE` parameter the store builds from the term. -/
theorem pct_wrap_toList (t : String) :
    ("%" ++ t ++ "%").toList = '%' :: (t.toList ++ ['%']) := by
  simp [String.toList, String.data_append]

/-- On wildcard-free terms the store's `LIKE` test coincides with the
spec-side case-insensitive substring test, on every string. -/
theorem likeMatches_eq_ciSubstring (t : String) (ht : NoWild t.toList) (s : String) :
    likeMatches ("%" ++ t ++ "%").toList s.toList = ciSubstring t s := by
  rw [pct_wrap_toList, ciSubstring, Bool.eq_iff_iff, decide_eq_true_eq]
  exact likeMatches_wrap t.toList ht s.toList

/-- Under the invariant, `search_products` reverses the filtered row list:
the WHERE clause keeps rowid order strictly increasing, so the ORDER BY
reverses it. -/
theorem search_products_eq (db : DB) (t : String) (hW : Wf db) :
    search_products db t = (db.rows.filter (fun r =>
        likeMatches ("%" ++ t ++ "%").toList r.name.toList ||
        likeMatches ("%" ++ t ++ "%").toList r.category.toList)).reverse :=
  sortDesc_eq_reverse _ (hW.1.sublist (List.filter_sublist _))

/-- C3 (amended): for search terms free of the SQL LIKE wildcard characters,
`search` returns exactly the records whose name or category contains the term
as a case-insensitive substring, in the id-descending order of `list_all`. -/
theorem search_eq_ci_filter_of_noWild (db : DB) (t : String)
    (ht : NoWild t.toList) :
    search_products db t =
      (read_products db).filter
        (fun r => ciSubstring t r.name || ciSubstring t r.category) := by
  unfold search_products read_products
  rw [filter_insertionSort]
  congr 1
  refine List.filter_congr ?_
  intro r _
  rw [likeMatches_eq_ciSubstring t ht, likeMatches_eq_ciSubstring t ht]

/-- C3 counterexample: the term with an underscore is returned as a match by
the store (the underscore acts as a LIKE wildcard) although it is not a
case-insensitive substring of the name nor of the category of the returned
record, refuting the claimed equivalence for arbitrary terms. -/
theorem search_not_ci_filter_cex :
    search_products (DB.mk [Product.mk 1 "axb" "tools" 10 2 "ts"] 1) "a_b" =
      [Product.mk 1 "axb" "tools" 10 2 "ts"] ∧
    ciSubstring "a_b" "axb" = false ∧ ciSubstring "a_b" "tools" = false :=
  ⟨rfl, by decide, by decide⟩

/-- C3 amended witness: on a wildcard-free term the equivalence holds, shown
at a concrete table. -/
theorem search_eq_ci_filter_of_noWild_witness :
    NoWild ("idge").toList ∧
    search_products (DB.mk [Product.mk 1 "Widget" "Hardware" 10 2 "ts"] 1) "idge" =
      (read_products (DB.mk [Product.mk 1 "Widget" "Hardware" 10 2 "ts"] 1)).filter
        (fun r => ciSubstring "idge" r.name || ciSubstring "idge" r.category) :=
  ⟨by decide,
   search_eq_ci_filter_of_noWild (DB.mk [Product.mk 1 "Widget" "Hardware" 10 2 "ts"] 1)
     "idge" (by decide)⟩

/-- C4: searching with the empty term returns exactly the `list_all`
sequence: the parameter becomes a double percent, which LIKE-matches every
string. -/
theorem search_empty_eq_list_all (db : DB) :
    search_products db "" = read_products db := by
  unfold search_products read_products
  congr 1
  refine List.filter_eq_self.mpr ?_
  intro r _
  have h : ∀ s : String, likeMatches ("%" ++ "" ++ "%").toList s.toList = true := by
    intro s
    rw [pct_wrap_toList]
    exact (likeMatches_wrap [] (fun c hc => absurd hc (List.not_mem_nil c)) s.toList).mpr
      List.nil_infix
  rw [Bool.or_eq_true]
  exact Or.inl (h r.name)

/-- The Widget scenario price is positive. -/
theorem rat999_pos : (0 : Rat) < 9.99 := by norm_num

/-- C1: for valid input, create followed by list_all yields exactly the old
sequence with one new record prepended; the new record carries the submitted
name, category, price and quantity together with the assigned id and the
creation timestamp, and it was not present before the call. -/
theorem create_then_list_all (db : DB) (n c : String) (p : Rat) (q : Int)
    (now : String) (hseq : ∀ r ∈ db.rows, r.id ≤ db.seq) (hn : n ≠ "")
    (hc : c ≠ "") (hp : 0 < p) (hq : 0 ≤ q) :
    read_products (create_product db n c p q now).1 =
      Product.mk (create_product db n c p q now).2 n c p q now ::
        read_products db ∧
    Product.mk (create_product db n c p q now).2 n c p q now ∉
      read_products db := by
  constructor
  · exact sortDesc_append_max db.rows _ (fun r hr => Nat.lt_succ_of_le (hseq r hr))
  · intro hmem
    have hmem2 : Product.mk (db.seq + 1) n c p q now ∈ db.rows :=
      (List.perm_insertionSort _ db.rows).mem_iff.mp hmem
    exact Nat.not_succ_le_self db.seq (hseq _ hmem2)

/-- C1 witness: the Widget scenario on the empty table. -/
theorem create_then_list_all_witness :
    ((∀ r ∈ DB.empty.rows, r.id ≤ DB.empty.seq) ∧ "Widget" ≠ "" ∧
      "Hardware" ≠ "" ∧ (0 : Rat) < 9.99 ∧ (0 : Int) ≤ 10) ∧
    (read_products (create_product DB.empty "Widget" "Hardware" 9.99 10 "ts").1 =
      Product.mk (create_product DB.empty "Widget" "Hardware" 9.99 10 "ts").2
        "Widget" "Hardware" 9.99 10 "ts" :: read_products DB.empty ∧
    Product.mk (create_product DB.empty "Widget" "Hardware" 9.99 10 "ts").2
        "Widget" "Hardware" 9.99 10 "ts" ∉ read_products DB.empty) :=
  ⟨⟨by decide, by decide, by decide, rat999_pos, by decide⟩,
   create_then_list_all DB.empty "Widget" "Hardware" 9.99 10 "ts"
     (by decide) (by decide) (by decide) rat999_pos (by decide)⟩

/-- C2: list_all returns every stored record exactly once (it is a
permutation of the table rows) and is sorted by id in strictly descending
order. -/
theorem list_all_perm_and_sorted (db : DB)
    (hnd : db.rows.Pairwise (fun a b => a.id ≠ b.id)) :
    List.Perm (read_products db) db.rows ∧
    (read_products db).Pairwise (fun a b => b.id < a.id) :=
  ⟨List.perm_insertionSort _ db.rows, sortDesc_pairwise_strict db.rows hnd⟩

/-- C2 witness: a concrete two-row table. -/
theorem list_all_perm_and_sorted_witness :
    (DB.mk [Product.mk 1 "a" "b" 10 2 "t", Product.mk 2 "c" "d" 3 4 "u"] 2).rows.Pairwise
      (fun a b => a.id ≠ b.id) ∧
    (List.Perm
      (read_products (DB.mk [Product.mk 1 "a" "b" 10 2 "t", Product.mk 2 "c" "d" 3 4 "u"] 2))
      (DB.mk [Product.mk 1 "a" "b" 10 2 "t", Product.mk 2 "c" "d" 3 4 "u"] 2).rows ∧
    (read_products (DB.mk [Product.mk 1 "a" "b" 10 2 "t", Product.mk 2 "c" "d" 3 4 "u"] 2)).Pairwise
      (fun a b => b.id < a.id)) :=
  ⟨by decide,
   list_all_perm_and_sorted
     (DB.mk [Product.mk 1 "a" "b" 10 2 "t", Product.mk 2 "c" "d" 3 4 "u"] 2) (by decide)⟩

/-- C5: updating a present id reports one affected row, and list_all
afterwards is the old sequence with exactly the matching record rewritten to
the new name, category, price and quantity, its id and created_date kept;
every other record and the order are unchanged. -/
theorem update_then_list_all (db : DB) (i : Nat) (n c : String) (p : Rat)
    (q : Int) (hnd : db.rows.Pairwise (fun a b => a.id ≠ b.id))
    (hmem : ∃ r ∈ db.rows, r.id = i) :
    (update_product db i n c p q).2 = 1 ∧
    read_products (update_product db i n c p q).1 =
      (read_products db).map (fun r =>
        if r.id = i then Product.mk r.id n c p q r.created_date else r) := by
  refine ⟨countP_id_eq_one db.rows i hnd hmem, ?_⟩
  have hg : ∀ r : Product,
      ((fun r => if r.id = i then Product.mk r.id n c p q r.created_date else r) r).id =
        r.id := by
    intro r
    by_cases h : r.id = i <;> simp [h]
  exact insertionSort_map _ hg db.rows

/-- C5 witness: the scenario update on a concrete one-row table. -/
theorem update_then_list_all_witness :
    ((DB.mk [Product.mk 1 "Widget" "Hardware" 10 2 "t"] 1).rows.Pairwise
        (fun a b => a.id ≠ b.id) ∧
      (∃ r ∈ (DB.mk [Product.mk 1 "Widget" "Hardware" 10 2 "t"] 1).rows, r.id = 1)) ∧
    ((update_product (DB.mk [Product.mk 1 "Widget" "Hardware" 10 2 "t"] 1) 1 "Widget" "Hardware" 12 5).2 = 1 ∧
     read_products (update_product (DB.mk [Product.mk 1 "Widget" "Hardware" 10 2 "t"] 1) 1 "Widget" "Hardware" 12 5).1 =
       (read_products (DB.mk [Product.mk 1 "Widget" "Hardware" 10 2 "t"] 1)).map (fun r =>
         if r.id = 1 then Product.mk r.id "Widget" "Hardware" 12 5 r.created_date else r)) :=
  ⟨⟨by decide, by decide⟩,
   update_then_list_all (DB.mk [Product.mk 1 "Widget" "Hardware" 10 2 "t"] 1) 1
     "Widget" "Hardware" 12 5 (by decide) (by decide)⟩

/-- C6: deleting a present id reports one affected row and removes it from
list_all; a second delete of the same id reports zero rows, and deleting an
id absent from any table reports zero rows. -/
theorem delete_then_list_all (db : DB) (i : Nat)
    (hnd : db.rows.Pairwise (fun a b => a.id ≠ b.id))
    (hmem : ∃ r ∈ db.rows, r.id = i) :
    (delete_product db i).2 = 1 ∧
    (∀ r ∈ read_products (delete_product db i).1, r.id ≠ i) ∧
    (delete_product (delete_product db i).1 i).2 = 0 ∧
    (∀ dbA : DB, (∀ r ∈ dbA.rows, r.id ≠ i) → (delete_product dbA i).2 = 0) := by
  have habs : ∀ r ∈ (delete_product db i).1.rows, r.id ≠ i := by
    intro r hr
    have h2 : r ∈ db.rows.filter (fun x => decide (x.id ≠ i)) := hr
    simpa using List.of_mem_filter h2
  refine ⟨countP_id_eq_one db.rows i hnd hmem,
    ?_, countP_id_eq_zero _ i habs, fun dbA h => countP_id_eq_zero _ i h⟩
  intro r hr
  exact habs r ((List.perm_insertionSort _ _).mem_iff.mp hr)

/-- C6 witness: delete on a concrete one-row table. -/
theorem delete_then_list_all_witness :
    ((DB.mk [Product.mk 1 "a" "b" 10 2 "t"] 1).rows.Pairwise (fun a b => a.id ≠ b.id) ∧
      (∃ r ∈ (DB.mk [Product.mk 1 "a" "b" 10 2 "t"] 1).rows, r.id = 1)) ∧
    ((delete_product (DB.mk [Product.mk 1 "a" "b" 10 2 "t"] 1) 1).2 = 1 ∧
     (∀ r ∈ read_products (delete_product (DB.mk [Product.mk 1 "a" "b" 10 2 "t"] 1) 1).1, r.id ≠ 1) ∧
     (delete_product (delete_product (DB.mk [Product.mk 1 "a" "b" 10 2 "t"] 1) 1).1 1).2 = 0 ∧
     (∀ dbA : DB, (∀ r ∈ dbA.rows, r.id ≠ 1) → (delete_product dbA 1).2 = 0)) :=
  ⟨⟨by decide, by decide⟩,
   delete_then_list_all (DB.mk [Product.mk 1 "a" "b" 10 2 "t"] 1) 1 (by decide) (by decide)⟩

/-- C7 counterexample: handed a price and a quantity that are not parseable
as numbers (plain text), `create_product` raises nothing and inserts the row
as given, returning the fresh id — the store performs no defensive type
check. -/
theorem create_raw_accepts_malformed :
    (create_product_raw RawDB.empty "Widget" "Hardware" (SqlVal.textV "abc")
        (SqlVal.textV "xyz") "ts").1.rows =
      [RawRow.mk 1 "Widget" "Hardware" (SqlVal.textV "abc") (SqlVal.textV "xyz") "ts"] ∧
    (create_product_raw RawDB.empty "Widget" "Hardware" (SqlVal.textV "abc")
        (SqlVal.textV "xyz") "ts").2 = 1 :=
  ⟨rfl, rfl⟩

/-- C7 (amended): the store performs no type validation at all — whatever
values are bound for price and quantity, the INSERT succeeds, appends exactly
one row holding those values verbatim and returns the fresh id; malformed
input is rejected only by the caller's `validate_form` before any store
call. -/
theorem create_raw_inserts_as_given (db : RawDB) (n c : String)
    (p q : SqlVal) (now : String) :
    (create_product_raw db n c p q now).1.rows =
      db.rows ++ [RawRow.mk (db.seq + 1) n c p q now] ∧
    (create_product_raw db n c p q now).2 = db.seq + 1 :=
  ⟨rfl, rfl⟩

/-- A submission rejected by any of the validation rules makes
`validate_form` return false. -/
theorem validate_form_false_of_invalid (f : Form)
    (h : pyStrip f.name = "" ∨ pyStrip f.category = "" ∨
      pyFloat? f.price = none ∨ (∃ v, pyFloat? f.price = some v ∧ v ≤ 0) ∨
      pyInt? f.quantity = none ∨ (∃ w, pyInt? f.quantity = some w ∧ w < 0)) :
    validate_form f = false := by
  unfold validate_form
  rcases h with h | h | h | ⟨v, hv, hv0⟩ | h | ⟨w, hw, hw0⟩
  · simp [h]
  · split
    · rfl
    · simp [h]
  · split
    · rfl
    split
    · rfl
    · rw [h]
  · split
    · rfl
    split
    · rfl
    · simp [hv, hv0]
  · split
    · rfl
    split
    · rfl
    split
    · rfl
    · split
      · rfl
      · simp [h]
  · split
    · rfl
    split
    · rfl
    split
    · rfl
    · split
      · rfl
      · simp [hw, hw0]

/-- C8: a submission whose price does not parse or is not strictly positive,
whose quantity does not parse or is negative, or whose name or category is
empty after stripping, is aborted by the validation step: `add_product`
makes no store call, inserts nothing and leaves the table unchanged. -/
theorem add_product_rejects_invalid (db : DB) (f : Form) (now : String)
    (h : pyStrip f.name = "" ∨ pyStrip f.category = "" ∨
      pyFloat? f.price = none ∨ (∃ v, pyFloat? f.price = some v ∧ v ≤ 0) ∨
      pyInt? f.quantity = none ∨ (∃ w, pyInt? f.quantity = some w ∧ w < 0)) :
    add_product db f now = (db, false) := by
  unfold add_product
  rw [validate_form_false_of_invalid f h]
  rfl

/-- C8 witness: the scenario submission with price written as minus five is
rejected and the table is untouched. -/
theorem add_product_rejects_invalid_witness :
    (∃ v, pyFloat? "-5" = some v ∧ v ≤ 0) ∧
    add_product DB.empty (Form.mk "Widget" "Hardware" "-5" "10") "ts" =
      (DB.empty, false) :=
  ⟨⟨-5, by decide, by decide⟩,
   add_product_rejects_invalid DB.empty (Form.mk "Widget" "Hardware" "-5" "10") "ts"
     (Or.inr (Or.inr (Or.inr (Or.inl ⟨-5, by decide, by decide⟩))))⟩

/-- C9: every store call is one total state transformation — update and
delete of an absent id return zero affected rows and leave the table exactly
as it was, and create, update and delete each map a well-formed table state
to a well-formed table state, never a partially-written one. -/
theorem store_calls_atomic (db : DB) (i : Nat) (n c : String) (p : Rat)
    (q : Int) (now : String) (habs : ∀ r ∈ db.rows, r.id ≠ i) :
    update_product db i n c p q = (db, 0) ∧
    delete_product db i = (db, 0) ∧
    (Wf db → Wf (create_product db n c p q now).1 ∧
      Wf (update_product db i n c p q).1 ∧ Wf (delete_product db i).1) := by
  refine ⟨?_, ?_, fun hW =>
    ⟨wf_create db n c p q now hW, wf_update db i n c p q hW, wf_delete db i hW⟩⟩
  · have hm : db.rows.map (fun r =>
        if r.id = i then Product.mk r.id n c p q r.created_date else r) = db.rows := by
      conv_rhs => rw [← List.map_id db.rows]
      exact List.map_congr_left (fun a ha => if_neg (habs a ha))
    unfold update_product
    rw [hm, countP_id_eq_zero db.rows i habs]
  · have hf : db.rows.filter (fun r => decide (r.id ≠ i)) = db.rows :=
      List.filter_eq_self.mpr (fun a ha => by simpa using habs a ha)
    unfold delete_product
    rw [hf, countP_id_eq_zero db.rows i habs]

/-- C9 witness: update and delete of an absent id on a concrete table. -/
theorem store_calls_atomic_witness :
    (∀ r ∈ (DB.mk [Product.mk 1 "a" "b" 10 2 "t"] 1).rows, r.id ≠ 5) ∧
    (update_product (DB.mk [Product.mk 1 "a" "b" 10 2 "t"] 1) 5 "n" "c" 3 4 =
        (DB.mk [Product.mk 1 "a" "b" 10 2 "t"] 1, 0) ∧
    delete_product (DB.mk [Product.mk 1 "a" "b" 10 2 "t"] 1) 5 =
        (DB.mk [Product.mk 1 "a" "b" 10 2 "t"] 1, 0) ∧
    (Wf (DB.mk [Product.mk 1 "a" "b" 10 2 "t"] 1) →
      Wf (create_product (DB.mk [Product.mk 1 "a" "b" 10 2 "t"] 1) "n" "c" 3 4 "now").1 ∧
      Wf (update_product (DB.mk [Product.mk 1 "a" "b" 10 2 "t"] 1) 5 "n" "c" 3 4).1 ∧
      Wf (delete_product (DB.mk [Product.mk 1 "a" "b" 10 2 "t"] 1) 5).1)) :=
  ⟨by decide,
   store_calls_atomic (DB.mk [Product.mk 1 "a" "b" 10 2 "t"] 1) 5 "n" "c" 3 4 "now"
     (by decide)⟩

/-- Trace invariant: starting from any well-formed state, the ids handed out
along a trace strictly increase, all exceed the starting AUTOINCREMENT value,
and the final state is well-formed. -/
theorem assignedIds_invariant (ops : List Op) : ∀ db : DB,
    ((assignedIds db ops).Pairwise (fun a b => a < b) ∧
     (∀ j ∈ assignedIds db ops, db.seq < j)) ∧
    (Wf db → Wf (ops.foldl applyOp db)) := by
  induction ops with
  | nil =>
    intro db
    exact ⟨⟨by simp [assignedIds], by simp [assignedIds]⟩, fun hW => hW⟩
  | cons op rest ih =>
    intro db
    cases op with
    | createOp n c p q now =>
      obtain ⟨⟨ih1, ih2⟩, ih3⟩ := ih (applyOp db (Op.createOp n c p q now))
      refine ⟨⟨?_, ?_⟩, fun hW => ih3 (wf_create db n c p q now hW)⟩
      · simp only [assignedIds]
        refine List.pairwise_cons.mpr ⟨?_, ih1⟩
        intro j hj
        exact ih2 j hj
      · intro j hj
        simp only [assignedIds] at hj
        rcases List.mem_cons.mp hj with h | h
        · rw [h]
          exact Nat.lt_succ_self db.seq
        · exact Nat.lt_of_succ_lt (ih2 j h)
    | updateOp i n c p q =>
      obtain ⟨⟨ih1, ih2⟩, ih3⟩ := ih (applyOp db (Op.updateOp i n c p q))
      refine ⟨⟨?_, ?_⟩, fun hW => ih3 (wf_update db i n c p q hW)⟩
      · simp only [assignedIds]
        exact ih1
      · intro j hj
        simp only [assignedIds] at hj
        exact ih2 j hj
    | deleteOp i =>
      obtain ⟨⟨ih1, ih2⟩, ih3⟩ := ih (applyOp db (Op.deleteOp i))
      refine ⟨⟨?_, ?_⟩, fun hW => ih3 (wf_delete db i hW)⟩
      · simp only [assignedIds]
        exact ih1
      · intro j hj
        simp only [assignedIds] at hj
        exact ih2 j hj

/-- C10: along any trace of create, update and delete calls from the empty
table, each create returns an id strictly greater than every id assigned
before it — deleted or not, so no id is ever reassigned — and the ids in the
table are pairwise distinct at all times. -/
theorem ids_never_reused (ops : List Op) :
    (assignedIds DB.empty ops).Pairwise (fun a b => a < b) ∧
    (runOps ops).rows.Pairwise (fun a b => a.id ≠ b.id) := by
  obtain ⟨⟨h1, _⟩, h3⟩ := assignedIds_invariant ops DB.empty
  exact ⟨h1, (h3 wf_empty).1.imp (fun h => Nat.ne_of_lt h)⟩
